import Mathlib

/-!
Verification of the document-assembly core of the curriculum-vitae generator
(src/curriculum_vitae/gen.py and the page-cleanup logic of
src/curriculum_vitae/__main__.py), as a shallow embedding in Lean.

Configuration values are the plain Python values produced by
TOMLDocument.unwrap(): strings, lists, string-keyed dicts (modelled as ordered
association lists, as Python dicts are insertion-ordered) and other scalars
(one representative constructor for integers suffices for the claims).
ODF elements built through odfpy are modelled by the inductive Node, keeping
exactly the attributes the generator sets (stylename, text,
numberrowsspanned, numbercolumnsspanned) and the child lists built through
addElement.
-/

set_option autoImplicit false

namespace CurriculumVitae

/-- A value of an unwrapped TOML document, as seen by gen.py. -/
inductive Toml where
  | str (s : String)
  | arr (xs : List Toml)
  | table (kvs : List (String × Toml))
  | int (n : Int)
deriving Repr

/-- isinstance(o, str). -/
def isStr : Toml → Bool
  | .str _ => true
  | _ => false

/-- gen.py is_seq_of_str (lines 21-22): isinstance(o, Sequence) and all
elements are str.  A Python str is itself a Sequence whose elements are
one-character strs, so every string satisfies the check; a list satisfies it
iff all its elements are strings; a dict is not a Sequence. -/
def is_seq_of_str : Toml → Bool
  | .str _ => true
  | .arr xs => xs.all isStr
  | _ => false

/-- gen.py is_mapping_of_str_to_str (lines 25-28).  Keys of an unwrapped TOML
table are always strings, so only the values need checking. -/
def is_mapping_of_str_to_str : Toml → Bool
  | .table kvs => kvs.all (fun kv => isStr kv.2)
  | _ => false

/-- Python `key in v` / `v[key]` on a dict, as an ordered association list. -/
def lookupKey (key : String) : List (String × Toml) → Option Toml
  | [] => none
  | (k, v) :: rest => if k == key then some v else lookupKey key rest

/-- gen.py get_blocks (lines 36-48).  Walks the (insertion-ordered) top-level
entries; a string is yielded as is, a dict that is exactly one entry at key
"_" holding a sequence of strings is yielded as that inner value (the List
alias), a dict of strings is yielded as is, and anything else raises
UnexpectedBlockType naming the block.  The error value is the offending
block name, as carried by the exception. -/
def get_blocks : List (String × Toml) → Except String (List (String × Toml))
  | [] => .ok []
  | (block_name, v) :: rest =>
    match v with
    | .str s => Except.map (fun bs => (block_name, Toml.str s) :: bs) (get_blocks rest)
    | .table kvs =>
      match lookupKey "_" kvs with
      | some u =>
        if kvs.length == 1 && is_seq_of_str u then
          Except.map (fun bs => (block_name, u) :: bs) (get_blocks rest)
        else if is_mapping_of_str_to_str (Toml.table kvs) then
          Except.map (fun bs => (block_name, Toml.table kvs) :: bs) (get_blocks rest)
        else .error block_name
      | none =>
        if is_mapping_of_str_to_str (Toml.table kvs) then
          Except.map (fun bs => (block_name, Toml.table kvs) :: bs) (get_blocks rest)
        else .error block_name
    | _ => .error block_name

/-- The condition under which get_blocks accepts a value (the three shapes of
the classifier: string, the single-key "_" alias, dict of strings). -/
def recognized : Toml → Bool
  | .str _ => true
  | .table kvs =>
    (kvs.length == 1 &&
      (match lookupKey "_" kvs with
       | some u => is_seq_of_str u
       | none => false))
    || is_mapping_of_str_to_str (Toml.table kvs)
  | _ => false

/-- The ODF element tree the generator builds, keeping only what it sets. -/
inductive Node where
  | Span (stylename : Option String) (text : String)
  | A (text : String) (href : String)
  | P (stylename : String) (text : Option String) (children : List Node)
  | TableCell (numberrowsspanned : Option Nat) (numbercolumnsspanned : Option Nat)
      (children : List Node)
  | TableRow (cells : List Node)
  | TableColumn (stylename : String)
  | Table (children : List Node)
deriving Repr

/-- Python str.split(sep) for a one-character separator, on the character
list: "a_b".split("_") = ["a","b"], "".split("_") = [""],
"_".split("_") = ["",""]. -/
def splitChar (sep : Char) : List Char → List (List Char)
  | [] => [[]]
  | c :: cs =>
    match splitChar sep cs with
    | [] => [[]]
    | t :: ts => if c == sep then [] :: t :: ts else (c :: t) :: ts

/-- value.split(sep) for a one-character separator sep, on strings. -/
def pySplit (sep : Char) (s : String) : List String :=
  (splitChar sep s.data).map List.asString

/-- The span list built by the loop of gen.py get_paragraph (lines 147-156):
one Span per token of value.split("_"), styled "Bold" on every second token
starting with the flag given (False at the call site). -/
def alt_spans : List String → Bool → List Node
  | [], _ => []
  | v :: rest, bold =>
    Node.Span (if bold then some "Bold" else none) v :: alt_spans rest (!bold)

/-- gen.py get_paragraph (lines 144-158). -/
def get_paragraph (style : String) (value : String) : Node :=
  Node.P style none (alt_spans (pySplit '_' value) false)

/-- gen.py get_normal_row (lines 161-179): a key cell holding the title as a
plain paragraph, and a value cell holding one get_paragraph per line of
value.split("\n"). -/
def get_normal_row (title : String) (value : String) : Node :=
  Node.TableRow
    [ Node.TableCell none none [Node.P "Table key" (some title) []],
      Node.TableCell none none
        ((pySplit '\n' value).map (get_paragraph "Table value")) ]

/-- gen.py get_list_cell (lines 182-195): an empty cell for None, otherwise a
cell holding the line as a plain paragraph. -/
def get_list_cell : Option String → Node
  | some line => Node.TableCell none none [Node.P "Table value" (some line) []]
  | none => Node.TableCell none none []

/-- itertools.zip_longest with the default fillvalue None, on two lists. -/
def zip_longest {α β : Type} : List α → List β → List (Option α × Option β)
  | [], [] => []
  | [], b :: bs => (none, some b) :: zip_longest [] bs
  | a :: as, [] => (some a, none) :: zip_longest as []
  | a :: as, b :: bs => (some a, some b) :: zip_longest as bs

/-- gen.py get_list_section (lines 198-232): two value columns, a header row
whose single cell spans both columns, then one row per element of
zip_longest(values[:middle], values[middle:]) with middle = ceil(n / 2)
(equal to (n + 1) / 2 in integer arithmetic). -/
def get_list_section (title : String) (values : List String) : Node :=
  Node.Table
    (Node.TableColumn "Table value" :: Node.TableColumn "Table value" ::
      Node.TableRow
        [Node.TableCell none (some 2)
          [Node.P "Table header" (some ("+ " ++ title.toUpper)) []]] ::
      (zip_longest (values.take ((values.length + 1) / 2))
          (values.drop ((values.length + 1) / 2))).map
        (fun line => Node.TableRow [get_list_cell line.1, get_list_cell line.2]))

/-- gen.py get_text_section (lines 235-257): no columns, a header row (no
column span), then one row whose cell is get_list_cell of the string. -/
def get_text_section (title : String) (line : String) : Node :=
  Node.Table
    [ Node.TableRow
        [Node.TableCell none none
          [Node.P "Table header" (some ("+ " ++ title.toUpper)) []]],
      Node.TableRow [get_list_cell (some line)] ]

/-- gen.py get_dict_section (lines 110-141): key and value columns, a header
row spanning both columns, then one get_normal_row per key/value pair. -/
def get_dict_section (title : String) (values : List (String × String)) : Node :=
  Node.Table
    (Node.TableColumn "Table column key" :: Node.TableColumn "Table column value" ::
      Node.TableRow
        [Node.TableCell none (some 2)
          [Node.P "Table header" (some ("+ " ++ title.toUpper)) []]] ::
      values.map (fun kv => get_normal_row kv.1 kv.2))

/-- One cell of the right header column (gen.py lines 93-103): a "Urls"
paragraph holding a hyperlink with the pair's text and target. -/
def url_cell (tu : String × String) : Node :=
  Node.TableCell none none [Node.P "Urls" none [Node.A tu.1 tu.2]]

/-- gen.py get_header (lines 51-107), after the header fields have been
popped.  The first row holds the title cell (spanning len(urls) rows, with
the title and subtitle paragraphs); on the first loop iteration the still
bound first row is re-appended (a DOM appendChild of the element already in
last position, leaving the row list unchanged) and receives the first URL
cell; every further URL gets a fresh row of its own. -/
def get_header (title subtitle : Option String) (urls : List (String × String)) : Node :=
  Node.Table
    (Node.TableColumn "Table title" :: Node.TableColumn "Table urls" ::
      (match urls with
       | [] =>
         [Node.TableRow
           [Node.TableCell (some 0) none
             [Node.P "Title" title [], Node.P "Subtitle" subtitle []]]]
       | u :: us =>
         Node.TableRow
           [Node.TableCell (some (us.length + 1)) none
             [Node.P "Title" title [], Node.P "Subtitle" subtitle []],
            url_cell u] ::
         us.map (fun w => Node.TableRow [url_cell w])))

/-- Python dict.pop(key, default): the value at the first matching key (if
any) and the mapping with that entry removed. -/
def popKey (key : String) : List (String × Toml) → Option Toml × List (String × Toml)
  | [] => (none, [])
  | (k, v) :: rest =>
    if k == key then (some v, rest)
    else
      let r := popKey key rest
      (r.1, (k, v) :: r.2)

def toStr : Toml → Option String
  | .str s => some s
  | _ => none

def toStrPair : String × Toml → Option (String × String)
  | (k, Toml.str s) => some (k, s)
  | _ => none

/-- config.pop("title", None) at gen.py line 52.  The claims only concern
string-valued header fields; a wrongly shaped field is reported as an error
(in the source it would fail inside the library calls that consume it). -/
def header_title : Option Toml → Except String (Option String)
  | none => .ok none
  | some (Toml.str s) => .ok (some s)
  | some _ => .error "title"

/-- config.pop("subtitle").upper() if "subtitle" in config else None, at
gen.py line 53: the subtitle is upper-cased, the title is not. -/
def header_subtitle : Option Toml → Except String (Option String)
  | none => .ok none
  | some (Toml.str s) => .ok (some s.toUpper)
  | some _ => .error "subtitle"

/-- The entries of a table as text pairs, when every value is a string. -/
def toStrPairs : List (String × Toml) → Option (List (String × String))
  | [] => some []
  | kv :: rest =>
    match toStrPair kv, toStrPairs rest with
    | some p, some ps => some (p :: ps)
    | _, _ => none

/-- config.pop("urls", {}) at gen.py line 54, iterated as text/url pairs. -/
def header_urls : Option Toml → Except String (List (String × String))
  | none => .ok []
  | some (Toml.table kvs) =>
    (match toStrPairs kvs with
     | some ps => .ok ps
     | none => .error "urls")
  | some _ => .error "urls"

/-- gen.py lines 52-54 followed by get_header: pop title, subtitle and urls
from the configuration (upper-casing the subtitle at line 53) and build the
header table; the remaining entries are what get_blocks will see. -/
def header_of_config (config : List (String × Toml)) :
    Except String (Node × List (String × Toml)) :=
  let tp := popKey "title" config
  let sp := popKey "subtitle" tp.2
  let up := popKey "urls" sp.2
  match header_title tp.1 with
  | .error e => .error e
  | .ok title =>
    match header_subtitle sp.1 with
    | .error e => .error e
    | .ok subtitle =>
      match header_urls up.1 with
      | .error e => .error e
      | .ok urls => .ok (get_header title subtitle urls, up.2)

/-- The dispatch of gen.py gen (lines 266-273): a str goes to the text
renderer, a Sequence to the list renderer, a Mapping to the dict renderer;
anything else leaves table = None (which the following addElement cannot
take).  get_blocks only ever yields the three rendered shapes, so the none
branches are unreachable from it. -/
def render_block : String × Toml → Option Node
  | (name, Toml.str s) => some (get_text_section name s)
  | (name, Toml.arr xs) =>
    if xs.all isStr then some (get_list_section name (xs.filterMap toStr)) else none
  | (name, Toml.table kvs) =>
    if kvs.all (fun kv => isStr kv.2) then
      some (get_dict_section name (kvs.filterMap toStrPair))
    else none
  | (_, Toml.int _) => none

/-- The loop of gen.py gen (lines 266-275): render each classified block in
order. -/
def render_blocks : List (String × Toml) → Except String (List Node)
  | [] => .ok []
  | b :: rest =>
    match render_block b with
    | some t => Except.map (fun ts => t :: ts) (render_blocks rest)
    | none => .error b.1

/-- gen.py gen (lines 260-277): the document body is the header table
followed by one rendered table per classified block, in configuration
order.  An exception anywhere discards the document (the caller writes
nothing). -/
def gen (config : List (String × Toml)) : Except String (List Node) :=
  match header_of_config config with
  | .error e => .error e
  | .ok hr =>
    match get_blocks hr.2 with
    | .error e => .error e
    | .ok blocks =>
      match render_blocks blocks with
      | .error e => .error e
      | .ok tables => .ok (hr.1 :: tables)

/-! Observation helpers used to state properties of rendered tables. -/

def is_row : Node → Bool
  | .TableRow _ => true
  | _ => false

/-- The rows of a table (its children that are rows, in order). -/
def table_rows : Node → List Node
  | .Table children => children.filter is_row
  | _ => []

/-- The rows of a section table after its header row. -/
def data_rows (n : Node) : List Node :=
  (table_rows n).drop 1

def row_cells : Node → List Node
  | .TableRow cells => cells
  | _ => []

def cell_children : Node → List Node
  | .TableCell _ _ children => children
  | _ => []

def p_children : Node → List Node
  | .P _ _ children => children
  | _ => []

/-- The text of the first paragraph of the first cell of the first row: for
every section renderer this is the "+ NAME" header text. -/
def section_title_text (n : Node) : Option String :=
  match table_rows n with
  | [] => none
  | r :: _ =>
    match row_cells r with
    | [] => none
    | c :: _ =>
      match cell_children c with
      | Node.P _ t _ :: _ => t
      | _ => none

/-- The hyperlinks (text, target) directly inside a paragraph. -/
def para_links (n : Node) : List (String × String) :=
  match n with
  | Node.P _ _ children =>
    children.filterMap (fun c =>
      match c with
      | Node.A t h => some (t, h)
      | _ => none)
  | _ => []

def cell_links (c : Node) : List (String × String) :=
  ((cell_children c).map para_links).flatten

def row_links (r : Node) : List (String × String) :=
  ((row_cells r).map cell_links).flatten

/-- All hyperlinks of a table, in row then cell order. -/
def header_links (t : Node) : List (String × String) :=
  ((table_rows t).map row_links).flatten

/-- The first cell of the first row of a table. -/
def first_data_cell (t : Node) : Option Node :=
  match table_rows t with
  | [] => none
  | r :: _ =>
    match row_cells r with
    | [] => none
    | c :: _ => some c

/-! The libreoffice-path page cleanup of src/curriculum_vitae/__main__.py. -/

/-- One single-page file produced by pdfseparate, abstracted to its path and
the bytes pdftotext prints for it. -/
structure Page where
  path : String
  text : List UInt8
deriving Repr

/-- main.py rm_if_empty_pdf (lines 58-69): a page is deleted (and reported
removed) exactly when its extracted text is shorter than 3 bytes. -/
def rm_if_empty_pdf (page : Page) : Bool :=
  page.text.length < 3

/-- The final output of the libreoffice path: either the pdfunite of the
surviving pages, or the original unsplit conversion. -/
inductive PdfOutput where
  | united (pages : List Page)
  | original
deriving Repr

/-- main.py pdf_convert_libreoffice (lines 95-107), after conversion and
splitting: keep the pages not removed by rm_if_empty_pdf, unite them when at
least one survives, and otherwise fall back to the original unsplit file. -/
def pdf_convert_libreoffice (pages : List Page) : PdfOutput :=
  let to_unite := pages.filter (fun page => !rm_if_empty_pdf page)
  if to_unite.length > 0 then .united to_unite else .original


/-! Helper lemmas. -/

theorem splitChar_of_not_mem {sep : Char} {cs : List Char} (h : sep ∉ cs) :
    splitChar sep cs = [cs] := by
  induction cs with
  | nil => rfl
  | cons c cs ih =>
    rw [List.mem_cons] at h
    push_neg at h
    rw [splitChar, ih h.2]
    have hc : (c == sep) = false := by
      simp only [beq_eq_false_iff_ne]
      exact fun hcs => h.1 hcs.symm
    simp [hc]

theorem pySplit_of_not_mem {sep : Char} {s : String} (h : sep ∉ s.data) :
    pySplit sep s = [s] := by
  rw [pySplit, splitChar_of_not_mem h]
  rfl

theorem zip_longest_length {α β : Type} (as : List α) (bs : List β) :
    (zip_longest as bs).length = max as.length bs.length := by
  induction as generalizing bs with
  | nil =>
    induction bs with
    | nil => simp [zip_longest]
    | cons b bs ih => simp [zip_longest, ih]
  | cons a as ih =>
    cases bs with
    | nil =>
      have := ih ([] : List β)
      simp [zip_longest] at this ⊢
      omega
    | cons b bs =>
      have := ih bs
      simp [zip_longest] at this ⊢
      omega

theorem zip_longest_getElem? {α β : Type} (as : List α) (bs : List β) (i : Nat) :
    (zip_longest as bs)[i]? =
      if i < max as.length bs.length then some (as[i]?, bs[i]?) else none := by
  induction as generalizing bs i with
  | nil =>
    induction bs generalizing i with
    | nil => simp [zip_longest]
    | cons b bs ih =>
      cases i with
      | zero => simp [zip_longest]
      | succ n =>
        have := ih n
        simp [zip_longest] at this ⊢
        rw [this]
  | cons a as ih =>
    cases bs with
    | nil =>
      cases i with
      | zero => simp [zip_longest]
      | succ n =>
        have := ih ([] : List β) n
        simp [zip_longest] at this ⊢
        rw [this]
    | cons b bs =>
      cases i with
      | zero => simp [zip_longest]
      | succ n =>
        have := ih bs n
        simp [zip_longest] at this ⊢
        rw [this]

theorem map_filter_is_row {α : Type} (g : α → Node)
    (h : ∀ a, is_row (g a) = true) (l : List α) :
    (l.map g).filter is_row = l.map g := by
  induction l with
  | nil => rfl
  | cons a l ih => simp [List.filter_cons, h a, ih]

theorem data_rows_list (title : String) (values : List String) :
    data_rows (get_list_section title values) =
      (zip_longest (values.take ((values.length + 1) / 2))
          (values.drop ((values.length + 1) / 2))).map
        (fun line => Node.TableRow [get_list_cell line.1, get_list_cell line.2]) := by
  have hmap := map_filter_is_row
    (fun line => Node.TableRow [get_list_cell line.1, get_list_cell line.2])
    (fun a => rfl)
    (zip_longest (values.take ((values.length + 1) / 2))
      (values.drop ((values.length + 1) / 2)))
  simp [data_rows, get_list_section, table_rows, is_row, List.filter_cons, hmap]

theorem data_rows_dict (title : String) (values : List (String × String)) :
    data_rows (get_dict_section title values) =
      values.map (fun kv => get_normal_row kv.1 kv.2) := by
  have hmap := map_filter_is_row
    (fun kv : String × String => get_normal_row kv.1 kv.2)
    (fun a => rfl) values
  simp [data_rows, get_dict_section, table_rows, is_row, List.filter_cons, hmap]

/-! Claim theorems. -/

/-- C3: a list block of length n renders into data rows pairing
left[i] = values[i] (for i below ceil(n/2)) with right[i] = values[ceil(n/2)+i];
there are exactly ceil(n/2) data rows, each with exactly two cells, and a
missing right item gives the empty cell get_list_cell none rather than an
omitted cell. -/
theorem C3_list_split (title : String) (values : List String) (i : Nat) :
    get_list_cell (none : Option String) = Node.TableCell none none [] ∧
    (data_rows (get_list_section title values)).length = (values.length + 1) / 2 ∧
    (data_rows (get_list_section title values))[i]? =
      (if i < (values.length + 1) / 2 then
        some (Node.TableRow
          [get_list_cell values[i]?,
           get_list_cell values[(values.length + 1) / 2 + i]?])
      else none) := by
  refine ⟨rfl, ?_, ?_⟩
  · rw [data_rows_list, List.length_map, zip_longest_length]
    simp only [List.length_take, List.length_drop]
    omega
  · rw [data_rows_list, List.getElem?_map, zip_longest_getElem?]
    have hmax : max (values.take ((values.length + 1) / 2)).length
        (values.drop ((values.length + 1) / 2)).length = (values.length + 1) / 2 := by
      simp only [List.length_take, List.length_drop]
      omega
    rw [hmax]
    by_cases hi : i < (values.length + 1) / 2
    · rw [if_pos hi, if_pos hi]
      rw [List.getElem?_take_of_lt hi, List.getElem?_drop]
      rfl
    · rw [if_neg hi, if_neg hi]
      rfl

/-- C5: the inline-emphasis tokenizer of get_paragraph maps "x_y_z" to the
three spans "x" (normal), "y" (bold), "z" (normal), and maps any string
containing no underscore to a single non-bold span. -/
theorem C5_tokenizer (style : String) :
    get_paragraph style "x_y_z" =
      Node.P style none
        [Node.Span none "x", Node.Span (some "Bold") "y", Node.Span none "z"] ∧
    ∀ s : String, '_' ∉ s.data →
      get_paragraph style s = Node.P style none [Node.Span none s] := by
  constructor
  · rfl
  · intro s h
    rw [get_paragraph, pySplit_of_not_mem h]
    rfl

/-- C5 witness: a concrete underscore-free string yields one non-bold span. -/
theorem C5_tokenizer_witness :
    get_paragraph "Table value" "abc" =
      Node.P "Table value" none [Node.Span none "abc"] :=
  (C5_tokenizer "Table value").2 "abc" (by decide)

/-- C7: a dict block renders, after the header row, exactly one row per
key/value pair, in order; the key cell holds the key as plain text and the
value cell holds one emphasis-styled paragraph per newline-delimited line of
the value. -/
theorem C7_dict_rows (title : String) (kvs : List (String × String)) (i : Nat) :
    (data_rows (get_dict_section title kvs)).length = kvs.length ∧
    (data_rows (get_dict_section title kvs))[i]? =
      (kvs[i]?).map (fun kv =>
        Node.TableRow
          [ Node.TableCell none none [Node.P "Table key" (some kv.1) []],
            Node.TableCell none none
              ((pySplit '\n' kv.2).map
                (fun l => Node.P "Table value" none (alt_spans (pySplit '_' l) false))) ]) := by
  constructor
  · rw [data_rows_dict, List.length_map]
  · rw [data_rows_dict, List.getElem?_map]
    rfl

/-- C9: during libreoffice-path cleanup, a split page is kept for the
reunited output exactly when its extracted text has at least the trivial
length 3 (in original page order), and when every page is below the
threshold the original unsplit conversion is used instead. -/
theorem C9_page_cleanup (pages : List Page) :
    (pages.all rm_if_empty_pdf = true →
      pdf_convert_libreoffice pages = PdfOutput.original) ∧
    (pages.all rm_if_empty_pdf = false →
      pdf_convert_libreoffice pages =
        PdfOutput.united (pages.filter (fun p => 3 ≤ p.text.length))) := by
  constructor
  · intro h
    have hf : pages.filter (fun page => !rm_if_empty_pdf page) = [] := by
      rw [List.filter_eq_nil_iff]
      intro p hp
      have := List.all_eq_true.mp h p hp
      simp [this]
    simp [pdf_convert_libreoffice, hf]
  · intro h
    have hq : pages.filter (fun page => !rm_if_empty_pdf page) =
        pages.filter (fun p => 3 ≤ p.text.length) := by
      apply List.filter_congr
      intro p _
      rw [rm_if_empty_pdf]
      by_cases h3 : 3 ≤ p.text.length
      · have hx : ¬(p.text.length < 3) := by omega
        simp [hx, h3]
      · have hx : p.text.length < 3 := by omega
        simp [hx, h3]
    rw [List.all_eq_false] at h
    obtain ⟨p, hp, hrm⟩ := h
    have hmem : p ∈ pages.filter (fun page => !rm_if_empty_pdf page) := by
      rw [List.mem_filter]
      exact ⟨hp, by simp [hrm]⟩
    have hlen : 0 < (pages.filter (fun page => !rm_if_empty_pdf page)).length :=
      List.length_pos.mpr (List.ne_nil_of_mem hmem)
    rw [pdf_convert_libreoffice]
    simp only [hq] at hlen ⊢
    rw [if_pos hlen]

/-- C9 witness: a one-page blank document falls back to the original
conversion, and a blank second page is dropped from a two-page document. -/
theorem C9_page_cleanup_witness :
    pdf_convert_libreoffice [⟨"separated-1.pdf", [10]⟩] = PdfOutput.original ∧
    pdf_convert_libreoffice
        [⟨"separated-1.pdf", [67, 86, 33, 10]⟩, ⟨"separated-2.pdf", [10]⟩] =
      PdfOutput.united [⟨"separated-1.pdf", [67, 86, 33, 10]⟩] :=
  ⟨(C9_page_cleanup [⟨"separated-1.pdf", [10]⟩]).1 (by decide),
   by
    have := (C9_page_cleanup
      [⟨"separated-1.pdf", [67, 86, 33, 10]⟩, ⟨"separated-2.pdf", [10]⟩]).2 (by decide)
    rw [this]
    rfl⟩

theorem all_isStr_map (s : List String) : (s.map Toml.str).all isStr = true := by
  induction s with
  | nil => rfl
  | cons a s ih => simp [isStr, ih]

theorem is_seq_of_str_map_str (s : List String) :
    is_seq_of_str (Toml.arr (s.map Toml.str)) = true := by
  rw [is_seq_of_str, all_isStr_map]

theorem filterMap_toStr_map (s : List String) :
    (s.map Toml.str).filterMap toStr = s := by
  induction s with
  | nil => rfl
  | cons a s ih => simp [List.filterMap_cons, toStr, ih]

/-- The alias test of gen.py line 41: a one-entry dict whose key "_" holds a
sequence of strings. -/
def alias_shape (kvs : List (String × Toml)) : Bool :=
  kvs.length == 1 &&
    (match lookupKey "_" kvs with
     | some u => is_seq_of_str u
     | none => false)

theorem recognized_table (kvs : List (String × Toml)) :
    recognized (Toml.table kvs) =
      (alias_shape kvs || is_mapping_of_str_to_str (Toml.table kvs)) := rfl

theorem popKey_not_mem {key : String} {l : List (String × Toml)}
    (h : ∀ e ∈ l, e.1 ≠ key) :
    popKey key l = (none, l) := by
  induction l with
  | nil => rfl
  | cons e l ih =>
    obtain ⟨k, v⟩ := e
    have hk : (k == key) = false := by
      simp only [beq_eq_false_iff_ne]
      exact h (k, v) (List.mem_cons_self (k, v) l)
    rw [popKey, ih (fun e he => h e (List.mem_cons_of_mem (k, v) he))]
    simp [hk]

theorem header_of_config_no_headers (config : List (String × Toml))
    (h : ∀ e ∈ config, e.1 ≠ "title" ∧ e.1 ≠ "subtitle" ∧ e.1 ≠ "urls") :
    header_of_config config = .ok (get_header none none [], config) := by
  have hp1 : popKey "title" config = (none, config) :=
    popKey_not_mem (fun e he => (h e he).1)
  have hp2 : popKey "subtitle" config = (none, config) :=
    popKey_not_mem (fun e he => (h e he).2.1)
  have hp3 : popKey "urls" config = (none, config) :=
    popKey_not_mem (fun e he => (h e he).2.2)
  simp only [header_of_config, hp1, hp2, hp3]
  rfl

/-- C1 counterexample: the mapping form renders to a document while the raw
sequence form makes get_blocks raise UnexpectedBlockType, so the two
documents are not identical at the concrete section
skills = ["a", "b"] versus skills = {"_": ["a", "b"]}. -/
theorem C1_counterexample :
    gen [("skills", Toml.table [("_", Toml.arr [Toml.str "a", Toml.str "b"])])] =
      .ok [get_header none none [], get_list_section "skills" ["a", "b"]] ∧
    gen [("skills", Toml.arr [Toml.str "a", Toml.str "b"])] = .error "skills" ∧
    gen [("skills", Toml.table [("_", Toml.arr [Toml.str "a", Toml.str "b"])])] ≠
      gen [("skills", Toml.arr [Toml.str "a", Toml.str "b"])] := by
  refine ⟨rfl, rfl, ?_⟩
  intro h
  rw [show gen [("skills", Toml.table [("_", Toml.arr [Toml.str "a", Toml.str "b"])])] =
        Except.ok [get_header none none [], get_list_section "skills" ["a", "b"]] from rfl,
      show gen [("skills", Toml.arr [Toml.str "a", Toml.str "b"])] =
        Except.error "skills" from rfl] at h
  exact Except.noConfusion h

/-- C1 (amended): for every ordered sequence of strings s and section name,
the mapping form {"_": s} is classified as a List block carrying s and is
rendered by the list renderer, while the raw sequence form is rejected by
the classifier with an error naming the section; only the mapping form is
renderable, so the alias equivalence fails. -/
theorem C1_alias_only_mapping_form (name : String) (s : List String) :
    get_blocks [(name, Toml.table [("_", Toml.arr (s.map Toml.str))])] =
      .ok [(name, Toml.arr (s.map Toml.str))] ∧
    render_block (name, Toml.arr (s.map Toml.str)) =
      some (get_list_section name s) ∧
    get_blocks [(name, Toml.arr (s.map Toml.str))] = .error name := by
  refine ⟨?_, ?_, rfl⟩
  · simp [get_blocks, lookupKey, is_seq_of_str_map_str, Except.map]
  · rw [show render_block (name, Toml.arr (s.map Toml.str)) =
        (if (s.map Toml.str).all isStr = true then
          some (get_list_section name ((s.map Toml.str).filterMap toStr))
        else none) from rfl,
      all_isStr_map, if_pos rfl, filterMap_toStr_map]

/-- C2 counterexample: the text block ("about", "a_b") is rendered with its
string as one plain paragraph holding the raw text (no spans at all), which
differs from the alternating-span paragraph the tokenizer would produce. -/
theorem C2_counterexample :
    get_text_section "about" "a_b" =
      Node.Table
        [ Node.TableRow
            [Node.TableCell none none
              [Node.P "Table header" (some ("+ " ++ "about".toUpper)) []]],
          Node.TableRow
            [Node.TableCell none none [Node.P "Table value" (some "a_b") []]] ] ∧
    (p_children (Node.P "Table value" (some "a_b") [])).length = 0 ∧
    get_paragraph "Table value" "a_b" =
      Node.P "Table value" none [Node.Span none "a", Node.Span (some "Bold") "b"] ∧
    Node.P "Table value" (some "a_b") [] ≠
      Node.P "Table value" none [Node.Span none "a", Node.Span (some "Bold") "b"] := by
  refine ⟨rfl, rfl, rfl, ?_⟩
  intro h
  injection h with h1 h2 h3
  exact Option.noConfusion h2

/-- C2 (amended): dict-block values are run through the inline-emphasis
tokenizer, one styled paragraph of alternating normal/bold spans per
newline-delimited line of the value, while the string of a Text block and
list items are rendered as plain paragraphs holding the raw text with no
spans. -/
theorem C2_emphasis_only_dict_values (title value : String) :
    get_normal_row title value =
      Node.TableRow
        [ Node.TableCell none none [Node.P "Table key" (some title) []],
          Node.TableCell none none
            ((pySplit '\n' value).map
              (fun l => Node.P "Table value" none (alt_spans (pySplit '_' l) false))) ] ∧
    get_text_section title value =
      Node.Table
        [ Node.TableRow
            [Node.TableCell none none
              [Node.P "Table header" (some ("+ " ++ title.toUpper)) []]],
          Node.TableRow
            [Node.TableCell none none [Node.P "Table value" (some value) []]] ] ∧
    get_list_cell (some value) =
      Node.TableCell none none [Node.P "Table value" (some value) []] :=
  ⟨rfl, rfl, rfl⟩

/-- C4: block classification accepts exactly the three shapes, tried in
priority order — a string, the single-entry "_" alias holding a sequence of
strings, a mapping of strings — and any other value makes get_blocks fail
immediately with an error naming the offending section; in particular gen
emits no document for the spec example {notes = 42}. -/
theorem C4_classification (name : String) (v : Toml) (rest : List (String × Toml)) :
    (∀ s, v = Toml.str s →
      get_blocks ((name, v) :: rest) =
        Except.map (fun bs => (name, v) :: bs) (get_blocks rest)) ∧
    (∀ kvs u, v = Toml.table kvs → alias_shape kvs = true →
      lookupKey "_" kvs = some u →
      get_blocks ((name, v) :: rest) =
        Except.map (fun bs => (name, u) :: bs) (get_blocks rest)) ∧
    (∀ kvs, v = Toml.table kvs → alias_shape kvs = false →
      is_mapping_of_str_to_str v = true →
      get_blocks ((name, v) :: rest) =
        Except.map (fun bs => (name, v) :: bs) (get_blocks rest)) ∧
    (recognized v = false → get_blocks ((name, v) :: rest) = .error name) ∧
    gen [("notes", Toml.int 42)] = .error "notes" := by
  refine ⟨?_, ?_, ?_, ?_, rfl⟩
  · rintro s rfl
    rfl
  · rintro kvs u rfl halias hlook
    rw [alias_shape, hlook] at halias
    simp only [Bool.and_eq_true] at halias
    simp [get_blocks, hlook, halias.1, halias.2]
  · rintro kvs rfl halias hmap
    cases hlook : lookupKey "_" kvs with
    | none => simp [get_blocks, hlook, hmap]
    | some u =>
      rw [alias_shape, hlook] at halias
      simp [get_blocks, hlook, halias, hmap]
  · intro hrec
    cases v with
    | str s => exact absurd hrec (by simp [recognized])
    | arr xs => rfl
    | int n => rfl
    | table kvs =>
      rw [recognized_table, Bool.or_eq_false_iff] at hrec
      obtain ⟨halias, hmap⟩ := hrec
      cases hlook : lookupKey "_" kvs with
      | none => simp [get_blocks, hlook, hmap]
      | some u =>
        rw [alias_shape, hlook] at halias
        simp [get_blocks, hlook, halias, hmap]

/-- C4 witness: the three accepted shapes classify, and the unsupported
shape {notes = 42} errors naming "notes". -/
theorem C4_classification_witness :
    get_blocks [("about", Toml.str "hi")] = .ok [("about", Toml.str "hi")] ∧
    get_blocks [("skills", Toml.table [("_", Toml.arr [Toml.str "Go"])])] =
      .ok [("skills", Toml.arr [Toml.str "Go"])] ∧
    get_blocks [("contact", Toml.table [("email", Toml.str "e")])] =
      .ok [("contact", Toml.table [("email", Toml.str "e")])] ∧
    get_blocks [("notes", Toml.int 42)] = .error "notes" :=
  ⟨((C4_classification "about" (Toml.str "hi") []).1 "hi" rfl).trans rfl,
   ((C4_classification "skills" (Toml.table [("_", Toml.arr [Toml.str "Go"])]) []).2.1
      [("_", Toml.arr [Toml.str "Go"])] (Toml.arr [Toml.str "Go"]) rfl rfl rfl).trans rfl,
   ((C4_classification "contact" (Toml.table [("email", Toml.str "e")]) []).2.2.1
      [("email", Toml.str "e")] rfl rfl rfl).trans rfl,
   (C4_classification "notes" (Toml.int 42) []).2.2.2.1 rfl⟩

/-- C10: a mapping with the single key "_" holding a string passes the
sequence-of-strings check (a Python str is a sequence of strings), so the
classifier yields the string itself, the block is dispatched to the text
renderer, and the section is not treated as a Dict block. -/
theorem C10_alias_string (name : String) (s : String)
    (h1 : name ≠ "title") (h2 : name ≠ "subtitle") (h3 : name ≠ "urls") :
    is_seq_of_str (Toml.str s) = true ∧
    get_blocks [(name, Toml.table [("_", Toml.str s)])] = .ok [(name, Toml.str s)] ∧
    render_block (name, Toml.str s) = some (get_text_section name s) ∧
    gen [(name, Toml.table [("_", Toml.str s)])] =
      .ok [get_header none none [], get_text_section name s] := by
  refine ⟨rfl, rfl, rfl, ?_⟩
  rw [gen, header_of_config_no_headers _ (by
    intro e he
    rw [List.mem_singleton] at he
    rw [he]
    exact ⟨h1, h2, h3⟩)]
  rfl

/-- C10 witness: the concrete section about = {"_": "abc"} goes through the
text renderer. -/
theorem C10_alias_string_witness :
    gen [("about", Toml.table [("_", Toml.str "abc")])] =
      .ok [get_header none none [], get_text_section "about" "abc"] :=
  (C10_alias_string "about" "abc" (by decide) (by decide) (by decide)).2.2.2

theorem section_title_text_text (name s : String) :
    section_title_text (get_text_section name s) = some ("+ " ++ name.toUpper) := rfl

theorem section_title_text_list (name : String) (vs : List String) :
    section_title_text (get_list_section name vs) = some ("+ " ++ name.toUpper) := rfl

theorem section_title_text_dict (name : String) (kvs : List (String × String)) :
    section_title_text (get_dict_section name kvs) = some ("+ " ++ name.toUpper) := rfl

theorem render_blocks_cons_some {b : String × Toml} {bs : List (String × Toml)}
    {ts : List Node} {tbl : Node}
    (hb : render_block b = some tbl) (hts : render_blocks bs = .ok ts) :
    render_blocks (b :: bs) = .ok (tbl :: ts) := by
  rw [render_blocks, hb, hts]
  rfl

/-- Every sequence of recognized blocks classifies and renders, producing
one section table per block whose header text carries the block name. -/
theorem blocks_render (l : List (String × Toml))
    (h : ∀ e ∈ l, recognized e.2 = true) :
    ∃ bs ts, get_blocks l = .ok bs ∧ render_blocks bs = .ok ts ∧
      ts.map section_title_text = l.map (fun e => some ("+ " ++ e.1.toUpper)) := by
  induction l with
  | nil => exact ⟨[], [], rfl, rfl, rfl⟩
  | cons e l ih =>
    obtain ⟨n, v⟩ := e
    have hv : recognized v = true := h (n, v) (List.mem_cons_self _ _)
    obtain ⟨bs, ts, hbs, hts, hmap⟩ :=
      ih (fun e he => h e (List.mem_cons_of_mem _ he))
    cases v with
    | int m => exact absurd hv (by simp [recognized])
    | arr xs => exact absurd hv (by simp [recognized])
    | str s =>
      refine ⟨(n, Toml.str s) :: bs, get_text_section n s :: ts, ?_, ?_, ?_⟩
      · rw [get_blocks, hbs]
        rfl
      · exact render_blocks_cons_some rfl hts
      · rw [List.map_cons, List.map_cons, hmap, section_title_text_text]
    | table kvs =>
      rw [recognized_table, Bool.or_eq_true] at hv
      by_cases halias : alias_shape kvs = true
      · cases hlook : lookupKey "_" kvs with
        | none => rw [alias_shape, hlook] at halias; simp at halias
        | some u =>
          rw [alias_shape, hlook] at halias
          cases u with
          | table kvs2 => simp [is_seq_of_str] at halias
          | int m => simp [is_seq_of_str] at halias
          | str s =>
            refine ⟨(n, Toml.str s) :: bs, get_text_section n s :: ts, ?_, ?_, ?_⟩
            · simp only [Bool.and_eq_true] at halias
              simp [get_blocks, hlook, halias.1, halias.2, hbs, Except.map]
            · exact render_blocks_cons_some rfl hts
            · rw [List.map_cons, List.map_cons, hmap, section_title_text_text]
          | arr xs =>
            simp only [is_seq_of_str] at halias
            simp only [Bool.and_eq_true] at halias
            refine ⟨(n, Toml.arr xs) :: bs,
              get_list_section n (xs.filterMap toStr) :: ts, ?_, ?_, ?_⟩
            · simp [get_blocks, hlook, halias.1, halias.2, is_seq_of_str, hbs,
                Except.map]
            · refine render_blocks_cons_some ?_ hts
              rw [show render_block (n, Toml.arr xs) =
                  (if xs.all isStr = true then
                    some (get_list_section n (xs.filterMap toStr))
                  else none) from rfl,
                halias.2, if_pos rfl]
            · rw [List.map_cons, List.map_cons, hmap, section_title_text_list]
      · have hmapstr : is_mapping_of_str_to_str (Toml.table kvs) = true := by
          rcases hv with hv | hv
          · exact absurd hv halias
          · exact hv
        have hall : kvs.all (fun kv => isStr kv.2) = true := hmapstr
        have halias2 : alias_shape kvs = false := by
          cases hf : alias_shape kvs
          · rfl
          · exact absurd hf halias
        refine ⟨(n, Toml.table kvs) :: bs,
          get_dict_section n (kvs.filterMap toStrPair) :: ts, ?_, ?_, ?_⟩
        · cases hlook : lookupKey "_" kvs with
          | none => simp [get_blocks, hlook, hmapstr, hbs, Except.map]
          | some u =>
            rw [alias_shape, hlook] at halias2
            simp [get_blocks, hlook, halias2, hmapstr, hbs, Except.map]
        · refine render_blocks_cons_some ?_ hts
          rw [show render_block (n, Toml.table kvs) =
              (if kvs.all (fun kv => isStr kv.2) = true then
                some (get_dict_section n (kvs.filterMap toStrPair))
              else none) from rfl,
            hall, if_pos rfl]
        · rw [List.map_cons, List.map_cons, hmap, section_title_text_dict]

/-- C6: for every configuration whose header fields extract and whose
remaining entries all have recognized shapes, assembly succeeds and the
document body is the header table followed by exactly one section table per
non-header key, in insertion order, each section carrying its key (upper-
cased, after "+ ") in its header row. -/
theorem C6_sections_in_order (config : List (String × Toml)) (hdr : Node)
    (rest : List (String × Toml))
    (hh : header_of_config config = .ok (hdr, rest))
    (hr : ∀ e ∈ rest, recognized e.2 = true) :
    ∃ tables, gen config = .ok (hdr :: tables) ∧
      tables.map section_title_text =
        rest.map (fun e => some ("+ " ++ e.1.toUpper)) := by
  obtain ⟨bs, ts, hbs, hts, hmap⟩ := blocks_render rest hr
  exact ⟨ts, by simp only [gen, hh, hbs, hts], hmap⟩

/-- C6 witness: a concrete configuration with a title and three sections of
the three shapes assembles into a header plus three tables in input order. -/
theorem C6_sections_in_order_witness :
    ∃ tables,
      gen [("title", Toml.str "Jane Doe"), ("about", Toml.str "hi"),
           ("skills", Toml.table [("_", Toml.arr [Toml.str "Go", Toml.str "Rust"])]),
           ("contact", Toml.table [("email", Toml.str "e")])] =
        .ok (get_header (some "Jane Doe") none [] :: tables) ∧
      tables.map section_title_text =
        [some ("+ " ++ "about".toUpper), some ("+ " ++ "skills".toUpper),
         some ("+ " ++ "contact".toUpper)] :=
  C6_sections_in_order _ (get_header (some "Jane Doe") none [])
    [("about", Toml.str "hi"),
     ("skills", Toml.table [("_", Toml.arr [Toml.str "Go", Toml.str "Rust"])]),
     ("contact", Toml.table [("email", Toml.str "e")])]
    rfl (by decide)

theorem toStrPairs_map (urls : List (String × String)) :
    toStrPairs (urls.map (fun u => (u.1, Toml.str u.2))) = some urls := by
  induction urls with
  | nil => rfl
  | cons u us ih => simp [toStrPairs, toStrPair, ih]

theorem header_urls_map (urls : List (String × String)) :
    header_urls (some (Toml.table (urls.map (fun u => (u.1, Toml.str u.2))))) =
      .ok urls := by
  show (match toStrPairs (urls.map (fun u => (u.1, Toml.str u.2))) with
        | some ps => (Except.ok ps : Except String (List (String × String)))
        | none => .error "urls") = .ok urls
  rw [toStrPairs_map]

theorem header_of_config_cons (t s : String) (urls : List (String × String))
    (rest : List (String × Toml)) :
    header_of_config
        (("title", Toml.str t) :: ("subtitle", Toml.str s) ::
          ("urls", Toml.table (urls.map (fun u => (u.1, Toml.str u.2)))) :: rest) =
      .ok (get_header (some t) (some s.toUpper) urls, rest) := by
  rw [show header_of_config
        (("title", Toml.str t) :: ("subtitle", Toml.str s) ::
          ("urls", Toml.table (urls.map (fun u => (u.1, Toml.str u.2)))) :: rest) =
      (match header_urls (some (Toml.table (urls.map (fun u => (u.1, Toml.str u.2))))) with
       | .error e => Except.error e
       | .ok urls2 => Except.ok (get_header (some t) (some s.toUpper) urls2, rest))
    from rfl, header_urls_map]

theorem table_rows_get_header_cons (title subtitle : Option String)
    (u : String × String) (us : List (String × String)) :
    table_rows (get_header title subtitle (u :: us)) =
      Node.TableRow
        [Node.TableCell (some (us.length + 1)) none
          [Node.P "Title" title [], Node.P "Subtitle" subtitle []],
         url_cell u] :: us.map (fun w => Node.TableRow [url_cell w]) := by
  have hmap := map_filter_is_row (fun w => Node.TableRow [url_cell w])
    (fun a => rfl) us
  simp [get_header, table_rows, List.filter_cons, is_row, hmap]

theorem row_links_url_row (w : String × String) :
    row_links (Node.TableRow [url_cell w]) = [w] := rfl

theorem row_links_title_row (title subtitle : Option String) (m : Nat)
    (u : String × String) :
    row_links (Node.TableRow
      [Node.TableCell (some m) none
        [Node.P "Title" title [], Node.P "Subtitle" subtitle []],
       url_cell u]) = [u] := rfl

theorem flatten_map_url_rows (us : List (String × String)) :
    ((us.map (fun w => Node.TableRow [url_cell w])).map row_links).flatten = us := by
  induction us with
  | nil => rfl
  | cons u us ih =>
    rw [List.map_cons, List.map_cons, List.flatten_cons, row_links_url_row, ih]
    rfl

theorem count_url_rows (us : List (String × String)) :
    ((us.map (fun w => Node.TableRow [url_cell w])).filter
        (fun r => !(row_links r).isEmpty)).length = us.length := by
  induction us with
  | nil => rfl
  | cons u us ih => simp [List.filter_cons, row_links_url_row, ih]

/-- C8: popping the header fields upper-cases the subtitle and leaves the
title unchanged, and in the rendered header table the first cell holds the
title and subtitle paragraphs (spanning len(urls) rows); the hyperlinks are
exactly the url pairs in order (text and target), with one link-carrying row
per URL pair, and zero link rows when the urls mapping is empty. -/
theorem C8_header_render (t s : String) (urls : List (String × String))
    (rest : List (String × Toml)) (title subtitle : Option String)
    (urls2 : List (String × String)) :
    header_of_config
        (("title", Toml.str t) :: ("subtitle", Toml.str s) ::
          ("urls", Toml.table (urls.map (fun u => (u.1, Toml.str u.2)))) :: rest) =
      .ok (get_header (some t) (some s.toUpper) urls, rest) ∧
    first_data_cell (get_header title subtitle urls2) =
      some (Node.TableCell (some urls2.length) none
        [Node.P "Title" title [], Node.P "Subtitle" subtitle []]) ∧
    header_links (get_header title subtitle urls2) = urls2 ∧
    ((table_rows (get_header title subtitle urls2)).filter
        (fun r => !(row_links r).isEmpty)).length = urls2.length := by
  refine ⟨header_of_config_cons t s urls rest, ?_, ?_, ?_⟩
  · cases urls2 with
    | nil => rfl
    | cons u us => rfl
  · cases urls2 with
    | nil => rfl
    | cons u us =>
      rw [header_links, table_rows_get_header_cons, List.map_cons,
        List.flatten_cons, row_links_title_row, flatten_map_url_rows us]
      rfl
  · cases urls2 with
    | nil => rfl
    | cons u us =>
      rw [table_rows_get_header_cons, List.filter_cons]
      have hrow : (!(row_links (Node.TableRow
          [Node.TableCell (some (us.length + 1)) none
            [Node.P "Title" title [], Node.P "Subtitle" subtitle []],
           url_cell u])).isEmpty) = true := rfl
      rw [if_pos hrow, List.length_cons, count_url_rows us, List.length_cons]

end CurriculumVitae
